import Mathlib

/-!
A shallow embedding of the timetable-consolidation core of `scrape.py`
(pacamobilite commute-table scraper).

Modelling choices:
* Times (Python `datetime` values on the queried date) are integer minutes;
  walking buffers (`delta * MINUTE`, a `timedelta`) are integer minutes as
  well, so `datetime` arithmetic and its total order become integer
  arithmetic on `Int`.
* Python tuple comparison is the explicit lexicographic comparator `cmpLex`
  built from `cmpLO`; Python `max`/`min` over a nonempty iterable are
  `pyfoldMax`/`pyfoldMin`, which keep the earlier element on ties exactly as
  CPython does.
* `ValueError` (raised by `max`/`min` on an empty sequence and by the
  explicit ambiguous-direction check) is the error type `MatchErr`; the
  per-run `try/except ValueError: continue` of `build_table` becomes the
  `Option` result of `matchRun`.
* The network/HTML layer of `parse_path` is elided: a fetched page is its
  list of per-stop rows of parsed time cells (`none` is the '|' no-service
  placeholder).  The pagination loop, the per-page
  `assert len(stops) == len(rows)`, and the final `list(zip(*timetable))`
  transposition are kept faithfully.
* Python dicts (the anchor sets and a line's direction mapping) are
  association lists in insertion order with unique keys.
-/

namespace Scrape

/-- Timepoint: a `datetime` on the queried date, counted in minutes. -/
abbrev Time := Int

/-- Stop name. -/
abbrev Stop := String

/-- Anchor mapping from stop name to walking minutes: the `home` or `office`
dict of the JSON config. -/
abbrev AnchorSet := List (Stop × Int)

/-- Element of a `filter_idx` result: stop index, stop name, walking buffer. -/
abbrev IdxEntry := Nat × Stop × Int

/-- Triple `(anchor-side candidate time, stop time, stop name)` as built by
the generator expressions under `max`/`min` in `build_table`. -/
abbrev TimeTriple := Time × Time × Stop

/-- A trip as stored in the `home2office` / `office2home` sets:
`(orig_stop, dest_stop, line)`. -/
abbrev Trip := TimeTriple × TimeTriple × String

/-- Comparison of two values of a linear order, as Python comparisons decide
it. -/
def cmpLO {α : Type _} [LinearOrder α] (a b : α) : Ordering :=
  if a < b then Ordering.lt else if b < a then Ordering.gt else Ordering.eq

/-- Lexicographic comparison of character lists by code point: Python string
comparison. -/
def cmpChars : List Char → List Char → Ordering
  | [], [] => Ordering.eq
  | [], _ :: _ => Ordering.lt
  | _ :: _, [] => Ordering.gt
  | a :: as, b :: bs =>
    match cmpLO a.val.toNat b.val.toNat with
    | Ordering.eq => cmpChars as bs
    | o => o

/-- Python string comparison (by Unicode code point). -/
def cmpStr (a b : String) : Ordering :=
  cmpChars a.data b.data

/-- Lexicographic combination of comparators: Python tuple comparison. -/
def cmpLex {α β : Type _} (ca : α → α → Ordering) (cb : β → β → Ordering)
    (x y : α × β) : Ordering :=
  match ca x.1 y.1 with
  | Ordering.eq => cb x.2 y.2
  | o => o

/-- Comparator of `filter_idx` entries: Python comparison of the tuples
`(i, stop, delta)`. -/
def cmpIdx : IdxEntry → IdxEntry → Ordering :=
  cmpLex cmpLO (cmpLex cmpStr cmpLO)

/-- Comparator of the `(candidate, time, stop)` triples. -/
def cmpTriple : TimeTriple → TimeTriple → Ordering :=
  cmpLex cmpLO (cmpLex cmpLO cmpStr)

/-- Comparator of whole trips: the Python tuple comparison used by `sorted`
on `(orig_stop, dest_stop, line)` tuples. -/
def cmpTrip : Trip → Trip → Ordering :=
  cmpLex cmpTriple (cmpLex cmpTriple cmpStr)

/-- Python `max(it)` on a nonempty iterable `x :: xs`: fold keeping the
current value unless a strictly greater element appears. -/
def pyfoldMax {α : Type _} (c : α → α → Ordering) (x : α) (xs : List α) : α :=
  xs.foldl (fun acc y => if c acc y = Ordering.lt then y else acc) x

/-- Python `min(it)` on a nonempty iterable `x :: xs`: fold keeping the
current value unless a strictly smaller element appears. -/
def pyfoldMin {α : Type _} (c : α → α → Ordering) (x : α) (xs : List α) : α :=
  xs.foldl (fun acc y => if c y acc = Ordering.lt then y else acc) x

/-- The `filter_idx` helper of `build_table`: the stops of the route that are
present in the anchor dict, with their stop index and walking buffer. -/
def filter_idx (stopnames : List Stop) (filtered : AnchorSet) : List IdxEntry :=
  stopnames.enum.filterMap fun p =>
    match filtered.lookup p.2 with
    | none => none
    | some delta => some (p.1, p.2, delta)

/-- The `get_stops` generator of `build_table`: anchor stops of `idxlist`
whose time in this run is present.  (An out-of-range stop index, impossible
for runs aligned with the stop list, is treated as absent.) -/
def get_stops (idxlist : List IdxEntry) (thetimes : List (Option Time)) :
    List (Time × Stop × Int) :=
  idxlist.filterMap fun e =>
    match (thetimes.get? e.1).join with
    | none => none
    | some t => some (t, e.2.1, e.2.2)

/-- Direction of a classified route. -/
inductive Dir
  | h2o
  | o2h
deriving DecidableEq

/-- ValueError as raised inside `build_table`: by `max`/`min` on an empty
sequence, or by the explicit ambiguous-direction `raise`. -/
inductive MatchErr
  | emptySeq
  | ambiguous
deriving DecidableEq

/-- Direction classification of one route+direction: the comparisons
`max(idx_home) < min(idx_office)` and `max(idx_office) < min(idx_home)` on
Python tuples, with `max`/`min` of an empty sequence raising `ValueError`
(uncaught there, hence a distinct failure). -/
def classify (idx_home idx_office : List IdxEntry) : Except MatchErr Dir :=
  match idx_home, idx_office with
  | [], _ => Except.error MatchErr.emptySeq
  | _ :: _, [] => Except.error MatchErr.emptySeq
  | h :: hs, o :: os =>
    if cmpIdx (pyfoldMax cmpIdx h hs) (pyfoldMin cmpIdx o os) = Ordering.lt then
      Except.ok Dir.h2o
    else if cmpIdx (pyfoldMax cmpIdx o os) (pyfoldMin cmpIdx h hs) = Ordering.lt then
      Except.ok Dir.o2h
    else
      Except.error MatchErr.ambiguous

/-- Origin-side candidates `(time - delta, time, stop)` of one run. -/
def orig_candidates (idx_orig : List IdxEntry) (times : List (Option Time)) :
    List TimeTriple :=
  (get_stops idx_orig times).map fun p => (p.1 - p.2.2, p.1, p.2.1)

/-- Destination-side candidates `(time + delta, time, stop)` of one run. -/
def dest_candidates (idx_dest : List IdxEntry) (times : List (Option Time)) :
    List TimeTriple :=
  (get_stops idx_dest times).map fun p => (p.1 + p.2.2, p.1, p.2.1)

/-- Body of the `for times in timetable` loop of `build_table`:
`orig_stop = max(...)` and `dest_stop = min(...)`; an empty candidate
sequence on either side raises `ValueError`, caught by
`except ValueError: continue`, so the run yields `none`. -/
def matchRun (idx_orig idx_dest : List IdxEntry) (times : List (Option Time)) :
    Option (TimeTriple × TimeTriple) :=
  match orig_candidates idx_orig times with
  | [] => none
  | o :: os =>
    match dest_candidates idx_dest times with
    | [] => none
    | d :: ds => some (pyfoldMax cmpTriple o os, pyfoldMin cmpTriple d ds)

/-- Python set insertion: adding an element already present leaves the set
unchanged (structural equality, not identity). -/
def setAdd (t : Trip) (acc : List Trip) : List Trip :=
  if t ∈ acc then acc else t :: acc

/-- Adding one run's trip (if any) to a direction's accumulated set:
`trip.add((orig_stop, dest_stop, line))` with Python set semantics. -/
def addRun (idx_orig idx_dest : List IdxEntry) (line : String)
    (acc : List Trip) (times : List (Option Time)) : List Trip :=
  match matchRun idx_orig idx_dest times with
  | none => acc
  | some od => setAdd (od.1, od.2, line) acc

/-- One route+direction as produced by `parse_path`: the stop names and the
list of runs. -/
abbrev RouteData := List Stop × List (List (Option Time))

/-- Python tuple order `a <= b` on trips, as `sorted` uses it. -/
def tripR (a b : Trip) : Prop :=
  cmpTrip a b ≠ Ordering.gt

instance : DecidableRel tripR := fun a b =>
  inferInstanceAs (Decidable (cmpTrip a b ≠ Ordering.gt))

/-- Processing of one route+direction inside the loops of `build_table`:
classify the direction, then match every run of the timetable into the
appropriate direction's set.  A classification `ValueError` propagates (it
is not caught anywhere in the source). -/
def processRoute (home office : AnchorSet) (line : String)
    (acc : List Trip × List Trip) (rd : RouteData) :
    Except MatchErr (List Trip × List Trip) :=
  match classify (filter_idx rd.1 home) (filter_idx rd.1 office) with
  | Except.error e => Except.error e
  | Except.ok Dir.h2o =>
      Except.ok
        (rd.2.foldl (addRun (filter_idx rd.1 home) (filter_idx rd.1 office) line) acc.1,
         acc.2)
  | Except.ok Dir.o2h =>
      Except.ok
        (acc.1,
         rd.2.foldl (addRun (filter_idx rd.1 office) (filter_idx rd.1 home) line) acc.2)

/-- The inner `for direction, (stops, timetable) in linedata.items()` loop,
over the direction dict in insertion order. -/
def processRoutes (home office : AnchorSet) (line : String) :
    List (String × RouteData) → List Trip × List Trip →
      Except MatchErr (List Trip × List Trip)
  | [], acc => Except.ok acc
  | dr :: drs, acc =>
    match processRoute home office line acc dr.2 with
    | Except.error e => Except.error e
    | Except.ok acc' => processRoutes home office line drs acc'

/-- The outer `for line, linedata in linesdata` loop. -/
def processLines (home office : AnchorSet) :
    List (String × List (String × RouteData)) → List Trip × List Trip →
      Except MatchErr (List Trip × List Trip)
  | [], acc => Except.ok acc
  | p :: ps, acc =>
    match processRoutes home office p.1 p.2 acc with
    | Except.error e => Except.error e
    | Except.ok acc' => processLines home office ps acc'

/-- The trip-matching core of `build_table`: the sorted, deduplicated
`home2office` and `office2home` trip lists.  (The final step that renders
these lists as string tables is not modelled; every claim is about the trip
lists themselves.) -/
def build_table (linesdata : List (String × List (String × RouteData)))
    (home office : AnchorSet) : Except MatchErr (List Trip × List Trip) :=
  match processLines home office linesdata ([], []) with
  | Except.error e => Except.error e
  | Except.ok ab =>
      Except.ok (List.insertionSort tripR ab.1, List.insertionSort tripR ab.2)

/-- Length of the shortest row: how many complete columns `zip(*timetable)`
keeps. -/
def minLen : List (List (Option Time)) → Nat
  | [] => 0
  | [t] => t.length
  | t :: ts => min t.length (minLen ts)

/-- Python `list(zip(*timetable))`: the transposition of the accumulated
per-stop rows, truncated to the shortest row. -/
def pyZipT (ts : List (List (Option Time))) : List (List (Option Time)) :=
  (List.range (minLen ts)).map fun i => ts.map fun r => r.getD i none

/-- AssertionError of the per-page `assert len(stops) == len(rows)`. -/
inductive ParseErr
  | assertFail
deriving DecidableEq

/-- The pagination loop of `parse_path`: for each fetched page, assert that
its row count matches the stop count, then extend each stop's accumulated
row with that page's cells. -/
def accRows (stops : List Stop) (tt : List (List (Option Time))) :
    List (List (List (Option Time))) → Except ParseErr (List (List (Option Time)))
  | [] => Except.ok tt
  | rows :: rest =>
    if stops.length = rows.length then
      accRows stops (List.zipWith (fun a b => a ++ b) tt rows) rest
    else Except.error ParseErr.assertFail

/-- The same accumulation with the assertion ignored: names the accumulated
timetable for the specifications below. -/
def pagesAcc (tt : List (List (Option Time))) :
    List (List (List (Option Time))) → List (List (Option Time))
  | [] => tt
  | rows :: rest => pagesAcc (List.zipWith (fun a b => a ++ b) tt rows) rest

/-- The run-matrix builder `parse_path`, over the already-fetched pages (each
page being its list of per-stop rows of parsed time cells).  The browser
always has a current page, so an empty page list is modelled as a failure. -/
def parse_path (stops : List Stop) (pages : List (List (List (Option Time)))) :
    Except ParseErr (List Stop × List (List (Option Time))) :=
  match pages with
  | [] => Except.error ParseErr.assertFail
  | first :: _ =>
    match accRows stops (first.map fun _ => []) pages with
    | Except.error e => Except.error e
    | Except.ok tt => Except.ok (stops, pyZipT tt)

/-- Keys of FORMATTING_FUNCTIONS, also the argparse `choices` of the format
flag. -/
def supported_formats : List String := ["text", "latex"]

/-- Observable phases of `main` after argument parsing. -/
inductive MainEvent
  | fetchLines
  | buildTable
  | printOutput
deriving DecidableEq

/-- How an invocation of `main` fails. -/
inductive MainErr
  | badFormatChoice
  | formatKeyError
deriving DecidableEq

/-- Control-flow skeleton of `main`, as a function of the requested output
format: argparse validates an explicitly supplied format against its
`choices` before anything runs, but the format flag is optional with no
default, so a missing format stays `None` and only the final
`FORMATTING_FUNCTIONS[args.format]` lookup fails, after the lines have been
fetched and `build_table` has run.  The fetching, parsing and printing
phases are abstracted into the returned event trace. -/
def mainFlow (format : Option String) : List MainEvent × Option MainErr :=
  match format with
  | some f =>
      if f ∈ supported_formats then
        ([MainEvent.fetchLines, MainEvent.buildTable, MainEvent.printOutput], none)
      else ([], some MainErr.badFormatChoice)
  | none =>
      ([MainEvent.fetchLines, MainEvent.buildTable], some MainErr.formatKeyError)

/-- Lawfulness of a comparator: swap symmetry, reflection of equality, and
transitivity of strict comparison.  These three facts make a comparator
behave like a linear order, which is what Python's tuple `max`/`min`/`sorted`
rely on. -/
structure LawCmp {α : Type _} (c : α → α → Ordering) : Prop where
  sym : ∀ a b, (c a b).swap = c b a
  eqv : ∀ a b, c a b = Ordering.eq → a = b
  ltt : ∀ a b d, c a b = Ordering.lt → c b d = Ordering.lt → c a d = Ordering.lt

theorem cmpLO_eq_lt {α : Type _} [LinearOrder α] {a b : α} :
    cmpLO a b = Ordering.lt ↔ a < b := by
  unfold cmpLO
  split_ifs with h1 h2 <;> simp [h1]

theorem cmpLO_eq_eq {α : Type _} [LinearOrder α] {a b : α} :
    cmpLO a b = Ordering.eq ↔ a = b := by
  unfold cmpLO
  split_ifs with h1 h2
  · simp [ne_of_lt h1]
  · simp [ne_of_gt h2]
  · rcases lt_trichotomy a b with h | h | h
    · exact absurd h h1
    · simp [h]
    · exact absurd h h2

theorem cmpLO_eq_gt {α : Type _} [LinearOrder α] {a b : α} :
    cmpLO a b = Ordering.gt ↔ b < a := by
  unfold cmpLO
  split_ifs with h1 h2
  · simp [lt_asymm h1]
  · simp [h2]
  · simp [h2]

theorem lawCmp_cmpLO {α : Type _} [LinearOrder α] : LawCmp (@cmpLO α _) := by
  refine ⟨?_, ?_, ?_⟩
  · intro a b
    rcases lt_trichotomy a b with h | h | h
    · rw [(@cmpLO_eq_lt α _ a b).mpr h, (@cmpLO_eq_gt α _ b a).mpr h]
      rfl
    · subst h
      rw [(@cmpLO_eq_eq α _ a a).mpr rfl]
      rfl
    · rw [(@cmpLO_eq_gt α _ a b).mpr h, (@cmpLO_eq_lt α _ b a).mpr h]
      rfl
  · intro a b h
    exact cmpLO_eq_eq.mp h
  · intro a b d h1 h2
    exact cmpLO_eq_lt.mpr (lt_trans (cmpLO_eq_lt.mp h1) (cmpLO_eq_lt.mp h2))

theorem LawCmp.refl {α : Type _} {c : α → α → Ordering} (hc : LawCmp c) (a : α) :
    c a a = Ordering.eq := by
  have h := hc.sym a a
  cases h' : c a a with
  | lt => rw [h'] at h; exact Ordering.noConfusion h
  | eq => rfl
  | gt => rw [h'] at h; exact Ordering.noConfusion h

theorem LawCmp.leTrans {α : Type _} {c : α → α → Ordering} (hc : LawCmp c)
    {a b d : α} (h1 : c a b ≠ Ordering.gt) (h2 : c b d ≠ Ordering.gt) :
    c a d ≠ Ordering.gt := by
  cases hab : c a b with
  | gt => exact absurd hab h1
  | eq => rw [← hc.eqv a b hab] at h2; exact h2
  | lt =>
    cases hbd : c b d with
    | gt => exact absurd hbd h2
    | eq => rw [hc.eqv b d hbd] at hab; rw [hab]; simp
    | lt => rw [hc.ltt a b d hab hbd]; simp

theorem LawCmp.geTrans {α : Type _} {c : α → α → Ordering} (hc : LawCmp c)
    {a b d : α} (h1 : c a b ≠ Ordering.lt) (h2 : c b d ≠ Ordering.lt) :
    c a d ≠ Ordering.lt := by
  cases hab : c a b with
  | lt => exact absurd hab h1
  | eq => rw [← hc.eqv a b hab] at h2; exact h2
  | gt =>
    cases hbd : c b d with
    | lt => exact absurd hbd h2
    | eq => rw [hc.eqv b d hbd] at hab; rw [hab]; simp
    | gt =>
      have hba : c b a = Ordering.lt := by
        have hs := hc.sym a b
        rw [hab] at hs
        exact hs.symm
      have hdb : c d b = Ordering.lt := by
        have hs := hc.sym b d
        rw [hbd] at hs
        exact hs.symm
      have hda : c d a = Ordering.lt := hc.ltt d b a hdb hba
      have hs := hc.sym d a
      rw [hda] at hs
      rw [← hs]
      decide

theorem LawCmp.total {α : Type _} {c : α → α → Ordering} (hc : LawCmp c)
    (a b : α) : c a b ≠ Ordering.gt ∨ c b a ≠ Ordering.gt := by
  cases h : c a b with
  | lt => left; decide
  | eq => left; decide
  | gt =>
    right
    have hs := hc.sym a b
    rw [h] at hs
    rw [← hs]
    decide

theorem cmpChars_sym (as bs : List Char) : (cmpChars as bs).swap = cmpChars bs as := by
  induction as generalizing bs with
  | nil => cases bs <;> rfl
  | cons a as ih =>
    cases bs with
    | nil => rfl
    | cons b bs =>
      rcases Nat.lt_trichotomy a.val.toNat b.val.toNat with h | h | h
      · have h1 : cmpLO a.val.toNat b.val.toNat = Ordering.lt := cmpLO_eq_lt.mpr h
        have h2 : cmpLO b.val.toNat a.val.toNat = Ordering.gt := cmpLO_eq_gt.mpr h
        simp only [cmpChars, h1, h2]
        rfl
      · have h1 : cmpLO a.val.toNat b.val.toNat = Ordering.eq := cmpLO_eq_eq.mpr h
        have h2 : cmpLO b.val.toNat a.val.toNat = Ordering.eq := cmpLO_eq_eq.mpr h.symm
        simp only [cmpChars, h1, h2]
        exact ih bs
      · have h1 : cmpLO a.val.toNat b.val.toNat = Ordering.gt := cmpLO_eq_gt.mpr h
        have h2 : cmpLO b.val.toNat a.val.toNat = Ordering.lt := cmpLO_eq_lt.mpr h
        simp only [cmpChars, h1, h2]
        rfl

theorem cmpChars_eqv (as : List Char) :
    ∀ bs : List Char, cmpChars as bs = Ordering.eq → as = bs := by
  induction as with
  | nil =>
    intro bs h
    cases bs with
    | nil => rfl
    | cons b bs => exact absurd h (by simp [cmpChars])
  | cons a as ih =>
    intro bs h
    cases bs with
    | nil => exact absurd h (by simp [cmpChars])
    | cons b bs =>
      cases h' : cmpLO a.val.toNat b.val.toNat with
      | lt => simp only [cmpChars, h'] at h; exact Ordering.noConfusion h
      | gt => simp only [cmpChars, h'] at h; exact Ordering.noConfusion h
      | eq =>
        simp only [cmpChars, h'] at h
        have ha : a = b := Char.ext (UInt32.ext (cmpLO_eq_eq.mp h'))
        rw [ha, ih bs h]

theorem cmpChars_cons_lt {a b : Char} {as bs : List Char}
    (h : cmpChars (a :: as) (b :: bs) = Ordering.lt) :
    a.val.toNat < b.val.toNat ∨
      (a.val.toNat = b.val.toNat ∧ cmpChars as bs = Ordering.lt) := by
  cases h' : cmpLO a.val.toNat b.val.toNat with
  | lt => exact Or.inl (cmpLO_eq_lt.mp h')
  | eq =>
    simp only [cmpChars, h'] at h
    exact Or.inr ⟨cmpLO_eq_eq.mp h', h⟩
  | gt => simp only [cmpChars, h'] at h; exact Ordering.noConfusion h

theorem cmpChars_lt_of_head {a b : Char} (as bs : List Char)
    (h : a.val.toNat < b.val.toNat) : cmpChars (a :: as) (b :: bs) = Ordering.lt := by
  simp only [cmpChars, cmpLO_eq_lt.mpr h]

theorem cmpChars_cons_of_head_eq {a b : Char} (as bs : List Char)
    (h : a.val.toNat = b.val.toNat) :
    cmpChars (a :: as) (b :: bs) = cmpChars as bs := by
  simp only [cmpChars, cmpLO_eq_eq.mpr h]

theorem cmpChars_ltt (as : List Char) :
    ∀ bs cs : List Char, cmpChars as bs = Ordering.lt →
      cmpChars bs cs = Ordering.lt → cmpChars as cs = Ordering.lt := by
  induction as with
  | nil =>
    intro bs cs h1 h2
    cases bs with
    | nil => exact absurd h1 (by simp [cmpChars])
    | cons b bs =>
      cases cs with
      | nil => exact absurd h2 (by simp [cmpChars])
      | cons c cs => simp [cmpChars]
  | cons a as ih =>
    intro bs cs h1 h2
    cases bs with
    | nil => exact absurd h1 (by simp [cmpChars])
    | cons b bs =>
      cases cs with
      | nil => exact absurd h2 (by simp [cmpChars])
      | cons c cs =>
        rcases cmpChars_cons_lt h1 with hh1 | ⟨he1, ht1⟩ <;>
          rcases cmpChars_cons_lt h2 with hh2 | ⟨he2, ht2⟩
        · exact cmpChars_lt_of_head as cs (Nat.lt_trans hh1 hh2)
        · exact cmpChars_lt_of_head as cs (by omega)
        · exact cmpChars_lt_of_head as cs (by omega)
        · rw [cmpChars_cons_of_head_eq as cs (he1.trans he2)]
          exact ih bs cs ht1 ht2

theorem lawCmp_cmpStr : LawCmp cmpStr := by
  refine ⟨?_, ?_, ?_⟩
  · intro a b
    exact cmpChars_sym a.data b.data
  · intro a b h
    cases a with
    | mk da =>
      cases b with
      | mk db => exact congrArg String.mk (cmpChars_eqv da db h)
  · intro a b d h1 h2
    exact cmpChars_ltt a.data b.data d.data h1 h2

theorem LawCmp.lex {α β : Type _} {ca : α → α → Ordering} {cb : β → β → Ordering}
    (ha : LawCmp ca) (hb : LawCmp cb) : LawCmp (cmpLex ca cb) := by
  refine ⟨?_, ?_, ?_⟩
  · intro x y
    have hs : ca y.1 x.1 = (ca x.1 y.1).swap := (ha.sym x.1 y.1).symm
    cases h' : ca x.1 y.1 with
    | lt =>
      have hs2 : ca y.1 x.1 = Ordering.gt := by rw [hs, h']; rfl
      simp only [cmpLex, h', hs2]
      rfl
    | gt =>
      have hs2 : ca y.1 x.1 = Ordering.lt := by rw [hs, h']; rfl
      simp only [cmpLex, h', hs2]
      rfl
    | eq =>
      have hs2 : ca y.1 x.1 = Ordering.eq := by rw [hs, h']; rfl
      simp only [cmpLex, h', hs2]
      exact hb.sym x.2 y.2
  · intro x y h
    cases h' : ca x.1 y.1 with
    | lt => simp only [cmpLex, h'] at h; exact Ordering.noConfusion h
    | gt => simp only [cmpLex, h'] at h; exact Ordering.noConfusion h
    | eq =>
      simp only [cmpLex, h'] at h
      exact Prod.ext (ha.eqv x.1 y.1 h') (hb.eqv x.2 y.2 h)
  · intro x y z h1 h2
    cases hxy : ca x.1 y.1 with
    | gt => simp only [cmpLex, hxy] at h1; exact Ordering.noConfusion h1
    | lt =>
      cases hyz : ca y.1 z.1 with
      | gt => simp only [cmpLex, hyz] at h2; exact Ordering.noConfusion h2
      | lt => simp only [cmpLex, ha.ltt x.1 y.1 z.1 hxy hyz]
      | eq =>
        have e := ha.eqv y.1 z.1 hyz
        rw [e] at hxy
        simp only [cmpLex, hxy]
    | eq =>
      have e := ha.eqv x.1 y.1 hxy
      simp only [cmpLex, hxy] at h1
      cases hyz : ca y.1 z.1 with
      | gt => simp only [cmpLex, hyz] at h2; exact Ordering.noConfusion h2
      | lt =>
        have hxz : ca x.1 z.1 = Ordering.lt := by rw [e]; exact hyz
        simp only [cmpLex, hxz]
      | eq =>
        simp only [cmpLex, hyz] at h2
        have hxz : ca x.1 z.1 = Ordering.eq := by rw [e]; exact hyz
        simp only [cmpLex, hxz]
        exact hb.ltt x.2 y.2 z.2 h1 h2

theorem lawCmp_cmpIdx : LawCmp cmpIdx :=
  LawCmp.lex lawCmp_cmpLO (LawCmp.lex lawCmp_cmpStr lawCmp_cmpLO)

theorem lawCmp_cmpTriple : LawCmp cmpTriple :=
  LawCmp.lex lawCmp_cmpLO (LawCmp.lex lawCmp_cmpLO lawCmp_cmpStr)

theorem lawCmp_cmpTrip : LawCmp cmpTrip :=
  LawCmp.lex lawCmp_cmpTriple (LawCmp.lex lawCmp_cmpTriple lawCmp_cmpStr)

theorem pyfoldMax_cons {α : Type _} (c : α → α → Ordering) (x y : α) (ys : List α) :
    pyfoldMax c x (y :: ys) =
      pyfoldMax c (if c x y = Ordering.lt then y else x) ys := rfl

theorem pyfoldMin_cons {α : Type _} (c : α → α → Ordering) (x y : α) (ys : List α) :
    pyfoldMin c x (y :: ys) =
      pyfoldMin c (if c y x = Ordering.lt then y else x) ys := rfl

/-- Python `max` returns one of the elements it was given. -/
theorem pyfoldMax_mem {α : Type _} (c : α → α → Ordering) :
    ∀ (xs : List α) (x : α), pyfoldMax c x xs ∈ x :: xs
  | [], x => by simp [pyfoldMax]
  | y :: ys, x => by
    rw [pyfoldMax_cons]
    rcases List.mem_cons.mp
        (pyfoldMax_mem c ys (if c x y = Ordering.lt then y else x)) with h | h
    · rw [h]
      split
      · exact List.mem_cons_of_mem _ (List.mem_cons_self _ _)
      · exact List.mem_cons_self _ _
    · exact List.mem_cons_of_mem _ (List.mem_cons_of_mem _ h)

/-- Python `min` returns one of the elements it was given. -/
theorem pyfoldMin_mem {α : Type _} (c : α → α → Ordering) :
    ∀ (xs : List α) (x : α), pyfoldMin c x xs ∈ x :: xs
  | [], x => by simp [pyfoldMin]
  | y :: ys, x => by
    rw [pyfoldMin_cons]
    rcases List.mem_cons.mp
        (pyfoldMin_mem c ys (if c y x = Ordering.lt then y else x)) with h | h
    · rw [h]
      split
      · exact List.mem_cons_of_mem _ (List.mem_cons_self _ _)
      · exact List.mem_cons_self _ _
    · exact List.mem_cons_of_mem _ (List.mem_cons_of_mem _ h)

/-- Every element is at most Python's `max` of its list (under a lawful
comparator). -/
theorem pyfoldMax_not_gt {α : Type _} {c : α → α → Ordering} (hc : LawCmp c) :
    ∀ (xs : List α) (x : α), ∀ z ∈ x :: xs, c z (pyfoldMax c x xs) ≠ Ordering.gt
  | [], x => by
    intro z hz
    have hzx : z = x := by simpa using hz
    subst hzx
    simp [pyfoldMax, hc.refl]
  | y :: ys, x => by
    intro z hz
    rw [pyfoldMax_cons]
    have hxx : c x (if c x y = Ordering.lt then y else x) ≠ Ordering.gt := by
      split
      · next hlt => rw [hlt]; decide
      · rw [hc.refl]; decide
    have hyx : c y (if c x y = Ordering.lt then y else x) ≠ Ordering.gt := by
      split
      · rw [hc.refl]; decide
      · next hnlt =>
        cases hxy : c x y with
        | lt => exact absurd hxy hnlt
        | eq => rw [← hc.eqv x y hxy, hc.refl]; decide
        | gt =>
          have hs := hc.sym x y
          rw [hxy] at hs
          rw [← hs]
          decide
    have hmain := pyfoldMax_not_gt hc ys (if c x y = Ordering.lt then y else x)
    rcases List.mem_cons.mp hz with rfl | hz2
    · exact hc.leTrans hxx (hmain _ (List.mem_cons_self _ _))
    · rcases List.mem_cons.mp hz2 with rfl | hz3
      · exact hc.leTrans hyx (hmain _ (List.mem_cons_self _ _))
      · exact hmain z (List.mem_cons_of_mem _ hz3)

/-- Python's `min` of a list is at most every element (under a lawful
comparator). -/
theorem pyfoldMin_not_lt {α : Type _} {c : α → α → Ordering} (hc : LawCmp c) :
    ∀ (xs : List α) (x : α), ∀ z ∈ x :: xs, c z (pyfoldMin c x xs) ≠ Ordering.lt
  | [], x => by
    intro z hz
    have hzx : z = x := by simpa using hz
    subst hzx
    simp [pyfoldMin, hc.refl]
  | y :: ys, x => by
    intro z hz
    rw [pyfoldMin_cons]
    have hxx : c x (if c y x = Ordering.lt then y else x) ≠ Ordering.lt := by
      split
      · next hlt =>
        have hs := hc.sym y x
        rw [hlt] at hs
        rw [← hs]
        decide
      · rw [hc.refl]; decide
    have hyx : c y (if c y x = Ordering.lt then y else x) ≠ Ordering.lt := by
      split
      · rw [hc.refl]; decide
      · next hnlt => exact hnlt
    have hmain := pyfoldMin_not_lt hc ys (if c y x = Ordering.lt then y else x)
    rcases List.mem_cons.mp hz with rfl | hz2
    · exact hc.geTrans hxx (hmain _ (List.mem_cons_self _ _))
    · rcases List.mem_cons.mp hz2 with rfl | hz3
      · exact hc.geTrans hyx (hmain _ (List.mem_cons_self _ _))
      · exact hmain z (List.mem_cons_of_mem _ hz3)

theorem cmpLex_fst_le {α β : Type _} [LinearOrder α] {cb : β → β → Ordering}
    {x y : α × β} (h : cmpLex cmpLO cb x y ≠ Ordering.gt) : x.1 ≤ y.1 := by
  cases h' : cmpLO x.1 y.1 with
  | lt => exact le_of_lt (cmpLO_eq_lt.mp h')
  | eq => exact le_of_eq (cmpLO_eq_eq.mp h')
  | gt => exact absurd (by simp only [cmpLex, h']) h

theorem cmpLex_fst_ge {α β : Type _} [LinearOrder α] {cb : β → β → Ordering}
    {x y : α × β} (h : cmpLex cmpLO cb x y ≠ Ordering.lt) : y.1 ≤ x.1 := by
  cases h' : cmpLO x.1 y.1 with
  | lt => exact absurd (by simp only [cmpLex, h']) h
  | eq => exact le_of_eq (cmpLO_eq_eq.mp h').symm
  | gt => exact le_of_lt (cmpLO_eq_gt.mp h')

theorem cmpLex_lt_of_fst_lt {α β : Type _} [LinearOrder α] {cb : β → β → Ordering}
    {x y : α × β} (h : x.1 < y.1) : cmpLex cmpLO cb x y = Ordering.lt := by
  simp only [cmpLex, cmpLO_eq_lt.mpr h]

theorem cmpLex_gt_of_fst_gt {α β : Type _} [LinearOrder α] {cb : β → β → Ordering}
    {x y : α × β} (h : y.1 < x.1) : cmpLex cmpLO cb x y = Ordering.gt := by
  simp only [cmpLex, cmpLO_eq_gt.mpr h]

theorem cmpLex_fst_le_of_lt {α β : Type _} [LinearOrder α] {cb : β → β → Ordering}
    {x y : α × β} (h : cmpLex cmpLO cb x y = Ordering.lt) : x.1 ≤ y.1 :=
  cmpLex_fst_le (by rw [h]; decide)

theorem cmpLex_not_gt_outer {α β : Type _} {ca : α → α → Ordering}
    {cb : β → β → Ordering} {x y : α × β}
    (h : cmpLex ca cb x y ≠ Ordering.gt) : ca x.1 y.1 ≠ Ordering.gt := by
  cases h' : ca x.1 y.1 with
  | lt => decide
  | eq => decide
  | gt => exact absurd (by simp only [cmpLex, h']) h

theorem cmpIdx_fst_le {x y : IdxEntry} (h : cmpIdx x y ≠ Ordering.gt) :
    x.1 ≤ y.1 := cmpLex_fst_le h

theorem cmpIdx_fst_ge {x y : IdxEntry} (h : cmpIdx x y ≠ Ordering.lt) :
    y.1 ≤ x.1 := cmpLex_fst_ge h

theorem cmpIdx_lt_of_fst_lt {x y : IdxEntry} (h : x.1 < y.1) :
    cmpIdx x y = Ordering.lt := cmpLex_lt_of_fst_lt h

theorem cmpIdx_gt_of_fst_gt {x y : IdxEntry} (h : y.1 < x.1) :
    cmpIdx x y = Ordering.gt := cmpLex_gt_of_fst_gt h

theorem cmpIdx_fst_le_of_lt {x y : IdxEntry} (h : cmpIdx x y = Ordering.lt) :
    x.1 ≤ y.1 := cmpLex_fst_le_of_lt h

theorem cmpTriple_fst_le {x y : TimeTriple} (h : cmpTriple x y ≠ Ordering.gt) :
    x.1 ≤ y.1 := cmpLex_fst_le h

theorem cmpTriple_fst_ge {x y : TimeTriple} (h : cmpTriple x y ≠ Ordering.lt) :
    y.1 ≤ x.1 := cmpLex_fst_ge h

theorem classify_cons (h : IdxEntry) (hs : List IdxEntry) (o : IdxEntry)
    (os : List IdxEntry) :
    classify (h :: hs) (o :: os) =
      if cmpIdx (pyfoldMax cmpIdx h hs) (pyfoldMin cmpIdx o os) = Ordering.lt then
        Except.ok Dir.h2o
      else if cmpIdx (pyfoldMax cmpIdx o os) (pyfoldMin cmpIdx h hs) = Ordering.lt then
        Except.ok Dir.o2h
      else Except.error MatchErr.ambiguous := rfl

/-- When every usable home index precedes every usable office index, the
route is classified home-to-office. -/
theorem classify_h2o_of_lt {ih io : List IdxEntry} (h1 : ih ≠ []) (h2 : io ≠ [])
    (hlt : ∀ a ∈ ih, ∀ b ∈ io, a.1 < b.1) : classify ih io = Except.ok Dir.h2o := by
  obtain ⟨h, hs, rfl⟩ := List.exists_cons_of_ne_nil h1
  obtain ⟨o, os, rfl⟩ := List.exists_cons_of_ne_nil h2
  have hc : cmpIdx (pyfoldMax cmpIdx h hs) (pyfoldMin cmpIdx o os) = Ordering.lt :=
    cmpIdx_lt_of_fst_lt
      (hlt _ (pyfoldMax_mem cmpIdx hs h) _ (pyfoldMin_mem cmpIdx os o))
  rw [classify_cons, hc]
  rfl

/-- When every usable office index precedes every usable home index, the
route is classified office-to-home. -/
theorem classify_o2h_of_gt {ih io : List IdxEntry} (h1 : ih ≠ []) (h2 : io ≠ [])
    (hgt : ∀ a ∈ ih, ∀ b ∈ io, b.1 < a.1) : classify ih io = Except.ok Dir.o2h := by
  obtain ⟨h, hs, rfl⟩ := List.exists_cons_of_ne_nil h1
  obtain ⟨o, os, rfl⟩ := List.exists_cons_of_ne_nil h2
  have hgt1 : cmpIdx (pyfoldMax cmpIdx h hs) (pyfoldMin cmpIdx o os) = Ordering.gt :=
    cmpIdx_gt_of_fst_gt
      (hgt _ (pyfoldMax_mem cmpIdx hs h) _ (pyfoldMin_mem cmpIdx os o))
  have hlt2 : cmpIdx (pyfoldMax cmpIdx o os) (pyfoldMin cmpIdx h hs) = Ordering.lt :=
    cmpIdx_lt_of_fst_lt
      (hgt _ (pyfoldMin_mem cmpIdx hs h) _ (pyfoldMax_mem cmpIdx os o))
  rw [classify_cons, hgt1, hlt2]
  rfl

/-- When the home and office index sets are disjoint but their ranges
overlap, neither tuple comparison can come out strictly less, so the
classification raises the dedicated ambiguous-direction error. -/
theorem classify_overlap_ambiguous_aux {ih io : List IdxEntry}
    (hdisj : ∀ a ∈ ih, ∀ b ∈ io, a.1 ≠ b.1)
    (hov1 : ∃ a ∈ ih, ∃ b ∈ io, b.1 ≤ a.1)
    (hov2 : ∃ a ∈ ih, ∃ b ∈ io, a.1 ≤ b.1) :
    classify ih io = Except.error MatchErr.ambiguous := by
  obtain ⟨a1, ha1, b1, hb1, hle1⟩ := hov1
  obtain ⟨a2, ha2, b2, hb2, hle2⟩ := hov2
  have hne1 : ih ≠ [] := fun hh => by subst hh; simp at ha1
  have hne2 : io ≠ [] := fun hh => by subst hh; simp at hb1
  obtain ⟨h, hs, rfl⟩ := List.exists_cons_of_ne_nil hne1
  obtain ⟨o, os, rfl⟩ := List.exists_cons_of_ne_nil hne2
  have hc1 : ¬ cmpIdx (pyfoldMax cmpIdx h hs) (pyfoldMin cmpIdx o os) = Ordering.lt := by
    intro hlt
    have hm1 : (pyfoldMax cmpIdx h hs).1 ≤ (pyfoldMin cmpIdx o os).1 :=
      cmpIdx_fst_le_of_lt hlt
    have hd : (pyfoldMax cmpIdx h hs).1 ≠ (pyfoldMin cmpIdx o os).1 :=
      hdisj _ (pyfoldMax_mem cmpIdx hs h) _ (pyfoldMin_mem cmpIdx os o)
    have ha1m : a1.1 ≤ (pyfoldMax cmpIdx h hs).1 :=
      cmpIdx_fst_le (pyfoldMax_not_gt lawCmp_cmpIdx hs h a1 ha1)
    have hb1m : (pyfoldMin cmpIdx o os).1 ≤ b1.1 :=
      cmpIdx_fst_ge (pyfoldMin_not_lt lawCmp_cmpIdx os o b1 hb1)
    omega
  have hc2 : ¬ cmpIdx (pyfoldMax cmpIdx o os) (pyfoldMin cmpIdx h hs) = Ordering.lt := by
    intro hlt
    have hm1 : (pyfoldMax cmpIdx o os).1 ≤ (pyfoldMin cmpIdx h hs).1 :=
      cmpIdx_fst_le_of_lt hlt
    have hd : (pyfoldMin cmpIdx h hs).1 ≠ (pyfoldMax cmpIdx o os).1 :=
      hdisj _ (pyfoldMin_mem cmpIdx hs h) _ (pyfoldMax_mem cmpIdx os o)
    have ha2m : (pyfoldMin cmpIdx h hs).1 ≤ a2.1 :=
      cmpIdx_fst_ge (pyfoldMin_not_lt lawCmp_cmpIdx hs h a2 ha2)
    have hb2m : b2.1 ≤ (pyfoldMax cmpIdx o os).1 :=
      cmpIdx_fst_le (pyfoldMax_not_gt lawCmp_cmpIdx os o b2 hb2)
    omega
  rw [classify_cons, if_neg hc1, if_neg hc2]

theorem setAdd_nodup {t : Trip} {acc : List Trip} (h : acc.Nodup) :
    (setAdd t acc).Nodup := by
  unfold setAdd
  split
  · exact h
  · next hmem => exact List.nodup_cons.mpr ⟨hmem, h⟩

theorem addRun_nodup (idx_orig idx_dest : List IdxEntry) (line : String)
    (times : List (Option Time)) {acc : List Trip} (h : acc.Nodup) :
    (addRun idx_orig idx_dest line acc times).Nodup := by
  unfold addRun
  cases matchRun idx_orig idx_dest times with
  | none => exact h
  | some od =>
    show (setAdd (od.1, od.2, line) acc).Nodup
    exact setAdd_nodup h

theorem foldl_addRun_nodup (idx_orig idx_dest : List IdxEntry) (line : String) :
    ∀ (runs : List (List (Option Time))) (acc : List Trip), acc.Nodup →
      (runs.foldl (addRun idx_orig idx_dest line) acc).Nodup
  | [], _, h => h
  | t :: ts, acc, h =>
    foldl_addRun_nodup idx_orig idx_dest line ts
      (addRun idx_orig idx_dest line acc t)
      (addRun_nodup idx_orig idx_dest line t h)

theorem processRoute_nodup {home office : AnchorSet} {line : String}
    {acc acc' : List Trip × List Trip} {rd : RouteData}
    (h : processRoute home office line acc rd = Except.ok acc')
    (h1 : acc.1.Nodup) (h2 : acc.2.Nodup) : acc'.1.Nodup ∧ acc'.2.Nodup := by
  unfold processRoute at h
  cases hc : classify (filter_idx rd.1 home) (filter_idx rd.1 office) with
  | error e => rw [hc] at h; exact Except.noConfusion h
  | ok d =>
    rw [hc] at h
    cases d with
    | h2o =>
      have hp := Except.ok.inj h
      subst hp
      exact ⟨foldl_addRun_nodup _ _ _ rd.2 acc.1 h1, h2⟩
    | o2h =>
      have hp := Except.ok.inj h
      subst hp
      exact ⟨h1, foldl_addRun_nodup _ _ _ rd.2 acc.2 h2⟩

theorem processRoutes_nodup (home office : AnchorSet) (line : String) :
    ∀ (drs : List (String × RouteData)) (acc acc' : List Trip × List Trip),
      processRoutes home office line drs acc = Except.ok acc' →
      acc.1.Nodup → acc.2.Nodup → acc'.1.Nodup ∧ acc'.2.Nodup
  | [], acc, acc', h, h1, h2 => by
    have hp := Except.ok.inj h
    subst hp
    exact ⟨h1, h2⟩
  | dr :: drs, acc, acc', h, h1, h2 => by
    unfold processRoutes at h
    cases hp : processRoute home office line acc dr.2 with
    | error e => rw [hp] at h; exact Except.noConfusion h
    | ok acc1 =>
      rw [hp] at h
      obtain ⟨g1, g2⟩ := processRoute_nodup hp h1 h2
      exact processRoutes_nodup home office line drs acc1 acc' h g1 g2

theorem processLines_nodup (home office : AnchorSet) :
    ∀ (ps : List (String × List (String × RouteData)))
      (acc acc' : List Trip × List Trip),
      processLines home office ps acc = Except.ok acc' →
      acc.1.Nodup → acc.2.Nodup → acc'.1.Nodup ∧ acc'.2.Nodup
  | [], acc, acc', h, h1, h2 => by
    have hp := Except.ok.inj h
    subst hp
    exact ⟨h1, h2⟩
  | p :: ps, acc, acc', h, h1, h2 => by
    unfold processLines at h
    cases hp : processRoutes home office p.1 p.2 acc with
    | error e => rw [hp] at h; exact Except.noConfusion h
    | ok acc1 =>
      rw [hp] at h
      obtain ⟨g1, g2⟩ := processRoutes_nodup home office p.1 p.2 acc acc1 hp h1 h2
      exact processLines_nodup home office ps acc1 acc' h g1 g2

instance : IsTotal Trip tripR :=
  ⟨fun a b => lawCmp_cmpTrip.total a b⟩

instance : IsTrans Trip tripR :=
  ⟨fun _ _ _ h1 h2 => lawCmp_cmpTrip.leTrans h1 h2⟩

/-- The primary sort key of the trip tuple order is the leave-anchor time. -/
theorem tripR_leave_le {a b : Trip} (h : tripR a b) : a.1.1 ≤ b.1.1 :=
  cmpTriple_fst_le (cmpLex_not_gt_outer h)

theorem accRows_len (stops : List Stop) :
    ∀ (pages : List (List (List (Option Time)))) (tt tt' : List (List (Option Time))),
      tt.length = stops.length → accRows stops tt pages = Except.ok tt' →
      tt'.length = stops.length
  | [], tt, tt', hlen, h => by
    have hp := Except.ok.inj h
    subst hp
    exact hlen
  | rows :: rest, tt, tt', hlen, h => by
    unfold accRows at h
    split at h
    · next hcond =>
      refine accRows_len stops rest _ tt' ?_ h
      rw [List.length_zipWith]
      omega
    · exact Except.noConfusion h

theorem accRows_all_ok (stops : List Stop) :
    ∀ (pages : List (List (List (Option Time)))) (tt : List (List (Option Time))),
      (∀ p ∈ pages, p.length = stops.length) →
      accRows stops tt pages = Except.ok (pagesAcc tt pages)
  | [], tt, _ => rfl
  | rows :: rest, tt, hall => by
    unfold accRows pagesAcc
    rw [if_pos (hall rows (List.mem_cons_self _ _)).symm]
    exact accRows_all_ok stops rest _ fun p hp => hall p (List.mem_cons_of_mem _ hp)

theorem pagesAcc_len (n : Nat) :
    ∀ (pages : List (List (List (Option Time)))) (tt : List (List (Option Time))),
      (∀ p ∈ pages, p.length = n) → tt.length = n → (pagesAcc tt pages).length = n
  | [], _, _, h => h
  | rows :: rest, tt, hall, h => by
    unfold pagesAcc
    refine pagesAcc_len n rest _ (fun p hp => hall p (List.mem_cons_of_mem _ hp)) ?_
    rw [List.length_zipWith]
    have := hall rows (List.mem_cons_self _ _)
    omega

theorem nodup_count_eq_one {α : Type _} [BEq α] [LawfulBEq α] {l : List α} {a : α}
    (d : l.Nodup) (h : a ∈ l) : l.count a = 1 := by
  induction l with
  | nil => simp at h
  | cons b bs ih =>
    rcases List.mem_cons.mp h with rfl | hmem
    · rw [List.count_cons_self]
      have hnotmem : a ∉ bs := (List.nodup_cons.mp d).1
      rw [List.count_eq_zero.mpr hnotmem]
    · have hne : a ≠ b := by
        rintro rfl
        exact (List.nodup_cons.mp d).1 hmem
      rw [List.count_cons_of_ne hne]
      exact ih (List.nodup_cons.mp d).2 hmem

theorem build_table_ok_cases {linesdata : List (String × List (String × RouteData))}
    {home office : AnchorSet} {l1 l2 : List Trip}
    (h : build_table linesdata home office = Except.ok (l1, l2)) :
    ∃ ab, processLines home office linesdata ([], []) = Except.ok ab ∧
      l1 = List.insertionSort tripR ab.1 ∧ l2 = List.insertionSort tripR ab.2 := by
  unfold build_table at h
  cases hp : processLines home office linesdata ([], []) with
  | error e => rw [hp] at h; exact Except.noConfusion h
  | ok ab =>
    rw [hp] at h
    have hpair := Except.ok.inj h
    exact ⟨ab, rfl, (congrArg Prod.fst hpair).symm, (congrArg Prod.snd hpair).symm⟩

/-- C1: for every classified route+direction and every run with at least one
present usable origin-side stop and one present usable destination-side
stop, the emitted trip's board pair is one of the origin candidates and its
candidate value `time - walkingBuffer` is maximal over all of them, and the
alight pair is a destination candidate whose value `time + walkingBuffer` is
minimal over all of them; in particular, with two usable origin stops both
present, the board pair maximizes `time - walkingBuffer` rather than being
the first stop encountered. -/
theorem matchRun_board_alight_optimal (idx_orig idx_dest : List IdxEntry)
    (times : List (Option Time))
    (h1 : get_stops idx_orig times ≠ [])
    (h2 : get_stops idx_dest times ≠ []) :
    ∃ o d, matchRun idx_orig idx_dest times = some (o, d) ∧
      o ∈ orig_candidates idx_orig times ∧
      (∀ y ∈ orig_candidates idx_orig times, y.1 ≤ o.1) ∧
      d ∈ dest_candidates idx_dest times ∧
      (∀ y ∈ dest_candidates idx_dest times, d.1 ≤ y.1) := by
  have h1' : orig_candidates idx_orig times ≠ [] := by
    unfold orig_candidates
    simpa using h1
  have h2' : dest_candidates idx_dest times ≠ [] := by
    unfold dest_candidates
    simpa using h2
  obtain ⟨o0, os, ho⟩ := List.exists_cons_of_ne_nil h1'
  obtain ⟨d0, ds, hd⟩ := List.exists_cons_of_ne_nil h2'
  refine ⟨pyfoldMax cmpTriple o0 os, pyfoldMin cmpTriple d0 ds, ?_, ?_, ?_, ?_, ?_⟩
  · simp only [matchRun, ho, hd]
  · rw [ho]; exact pyfoldMax_mem cmpTriple os o0
  · intro y hy
    rw [ho] at hy
    exact cmpTriple_fst_le (pyfoldMax_not_gt lawCmp_cmpTriple os o0 y hy)
  · rw [hd]; exact pyfoldMin_mem cmpTriple ds d0
  · intro y hy
    rw [hd] at hy
    exact cmpTriple_fst_ge (pyfoldMin_not_lt lawCmp_cmpTriple ds d0 y hy)

/-- Witness for C1: two usable origin stops both present; the board pair is
the one maximizing `time - walkingBuffer` (stop B: 483 - 2 = 481 beats stop
A: 480 - 10 = 470), not the first stop encountered. -/
theorem matchRun_board_alight_optimal_witness :
    ∃ o d, matchRun (filter_idx ["A", "B", "C"] [("A", 10), ("B", 2)])
        (filter_idx ["A", "B", "C"] [("C", 3)]) [some 480, some 483, some 500] =
          some (o, d) ∧
      o ∈ orig_candidates (filter_idx ["A", "B", "C"] [("A", 10), ("B", 2)])
            [some 480, some 483, some 500] ∧
      (∀ y ∈ orig_candidates (filter_idx ["A", "B", "C"] [("A", 10), ("B", 2)])
            [some 480, some 483, some 500], y.1 ≤ o.1) ∧
      d ∈ dest_candidates (filter_idx ["A", "B", "C"] [("C", 3)])
            [some 480, some 483, some 500] ∧
      (∀ y ∈ dest_candidates (filter_idx ["A", "B", "C"] [("C", 3)])
            [some 480, some 483, some 500], d.1 ≤ y.1) :=
  matchRun_board_alight_optimal _ _ _ (by decide) (by decide)

/-- C2 counterexample: home uses stop A (index 0) and office uses stops A
and B (indices 0 and 1), so the usable index ranges overlap (both contain
index 0); yet `max(idx_home) < min(idx_office)` compares the full Python
tuples, ties on index 0 and stop name A are broken by the walking buffers
(5 < 7), and the route is silently classified home-to-office instead of
failing with the ambiguous-direction error. -/
theorem classify_overlap_counterexample :
    filter_idx ["A", "B"] [("A", 5)] = [(0, "A", 5)] ∧
    filter_idx ["A", "B"] [("A", 7), ("B", 3)] = [(0, "A", 7), (1, "B", 3)] ∧
    classify (filter_idx ["A", "B"] [("A", 5)])
        (filter_idx ["A", "B"] [("A", 7), ("B", 3)]) = Except.ok Dir.h2o :=
  ⟨rfl, rfl, rfl⟩

/-- C2 (amended): for every route+direction in which no stop index is usable
for both anchors, if the usable home and office stop-index ranges overlap or
interleave (some office index is at most some home index, and some home
index is at most some office index), classification fails with exactly the
distinct ambiguous-direction error — never a crash with a different
exception, never a silent classification. -/
theorem classify_overlap_rejected (stops : List Stop) (home office : AnchorSet)
    (hdisj : ∀ a ∈ filter_idx stops home, ∀ b ∈ filter_idx stops office, a.1 ≠ b.1)
    (hov1 : ∃ a ∈ filter_idx stops home, ∃ b ∈ filter_idx stops office, b.1 ≤ a.1)
    (hov2 : ∃ a ∈ filter_idx stops home, ∃ b ∈ filter_idx stops office, a.1 ≤ b.1) :
    classify (filter_idx stops home) (filter_idx stops office) =
      Except.error MatchErr.ambiguous :=
  classify_overlap_ambiguous_aux hdisj hov1 hov2

/-- Witness for the amended C2: home stops A and C surround office stop B,
so the ranges interleave and classification raises the dedicated error. -/
theorem classify_overlap_rejected_witness :
    classify (filter_idx ["A", "B", "C"] [("A", 1), ("C", 1)])
        (filter_idx ["A", "B", "C"] [("B", 2)]) =
      Except.error MatchErr.ambiguous :=
  classify_overlap_rejected ["A", "B", "C"] [("A", 1), ("C", 1)] [("B", 2)]
    (by decide)
    ⟨(2, "C", 1), by decide, (1, "B", 2), by decide, by decide⟩
    ⟨(0, "A", 1), by decide, (1, "B", 2), by decide, by decide⟩

/-- C3: when the usable home and office stop-index ranges do not overlap —
every usable home index below every usable office index, or conversely —
classification succeeds, labelling the route home-to-office in the first
case and office-to-home in the second.  Determinism is inherent: `classify`
is a pure function, so equal stop orderings and anchor sets always produce
the same label. -/
theorem classify_disjoint_ranges_total (stops : List Stop) (home office : AnchorSet)
    (hne1 : filter_idx stops home ≠ []) (hne2 : filter_idx stops office ≠ []) :
    ((∀ a ∈ filter_idx stops home, ∀ b ∈ filter_idx stops office, a.1 < b.1) →
      classify (filter_idx stops home) (filter_idx stops office) = Except.ok Dir.h2o) ∧
    ((∀ a ∈ filter_idx stops home, ∀ b ∈ filter_idx stops office, b.1 < a.1) →
      classify (filter_idx stops home) (filter_idx stops office) = Except.ok Dir.o2h) :=
  ⟨fun hlt => classify_h2o_of_lt hne1 hne2 hlt,
   fun hgt => classify_o2h_of_gt hne1 hne2 hgt⟩

/-- Witness for C3: home stop A before office stop C gives home-to-office. -/
theorem classify_disjoint_ranges_total_witness :
    classify (filter_idx ["A", "B", "C"] [("A", 5)])
        (filter_idx ["A", "B", "C"] [("C", 3)]) = Except.ok Dir.h2o :=
  (classify_disjoint_ranges_total ["A", "B", "C"] [("A", 5)] [("C", 3)]
      (by decide) (by decide)).1 (by decide)

/-- C4: every trip list produced by the matcher is sorted ascending in the
Python tuple order on `((leave, board, board stop), (arrive, alight, alight
stop), line)` — the relation `tripR` — and consequently every pair of
consecutive trips has nondecreasing leave-anchor times. -/
theorem build_table_sorted (linesdata : List (String × List (String × RouteData)))
    (home office : AnchorSet) (l1 l2 : List Trip)
    (h : build_table linesdata home office = Except.ok (l1, l2)) :
    (List.Sorted tripR l1 ∧ List.Sorted tripR l2) ∧
    (List.Chain' (fun a b : Trip => a.1.1 ≤ b.1.1) l1 ∧
     List.Chain' (fun a b : Trip => a.1.1 ≤ b.1.1) l2) := by
  obtain ⟨ab, _, e1, e2⟩ := build_table_ok_cases h
  subst e1
  subst e2
  have s1 := List.sorted_insertionSort tripR ab.1
  have s2 := List.sorted_insertionSort tripR ab.2
  exact ⟨⟨s1, s2⟩,
    s1.chain'.imp fun a b hab => tripR_leave_le hab,
    s2.chain'.imp fun a b hab => tripR_leave_le hab⟩

/-- Witness for C4: a route with two runs; the produced home-to-office list
comes out sorted by leave-anchor time (415 before 475). -/
theorem build_table_sorted_witness :
    (List.Sorted tripR
        [((415, 420, "A"), (443, 440, "C"), "L"),
         ((475, 480, "A"), (503, 500, "C"), "L")] ∧
     List.Sorted tripR ([] : List Trip)) ∧
    (List.Chain' (fun a b : Trip => a.1.1 ≤ b.1.1)
        [((415, 420, "A"), (443, 440, "C"), "L"),
         ((475, 480, "A"), (503, 500, "C"), "L")] ∧
     List.Chain' (fun a b : Trip => a.1.1 ≤ b.1.1) ([] : List Trip)) :=
  build_table_sorted
    [("L", [("dir", (["A", "B", "C"],
        [[some 480, some 490, some 500], [some 420, some 430, some 440]]))])]
    [("A", 5)] [("C", 3)] _ _ rfl

/-- C5: trips are value objects deduplicated with set semantics: the trip
lists produced by the matcher contain no duplicates, so any trip discovered
by several runs, lines or dates appears exactly once. -/
theorem build_table_dedup (linesdata : List (String × List (String × RouteData)))
    (home office : AnchorSet) (l1 l2 : List Trip)
    (h : build_table linesdata home office = Except.ok (l1, l2)) :
    (l1.Nodup ∧ l2.Nodup) ∧
    (∀ t ∈ l1, l1.count t = 1) ∧ (∀ t ∈ l2, l2.count t = 1) := by
  obtain ⟨ab, hp, e1, e2⟩ := build_table_ok_cases h
  obtain ⟨g1, g2⟩ := processLines_nodup home office linesdata ([], []) ab hp
    List.nodup_nil List.nodup_nil
  subst e1
  subst e2
  have n1 : (List.insertionSort tripR ab.1).Nodup :=
    (List.perm_insertionSort tripR ab.1).nodup_iff.mpr g1
  have n2 : (List.insertionSort tripR ab.2).Nodup :=
    (List.perm_insertionSort tripR ab.2).nodup_iff.mpr g2
  exact ⟨⟨n1, n2⟩, fun t ht => nodup_count_eq_one n1 ht,
    fun t ht => nodup_count_eq_one n2 ht⟩

/-- Witness for C5: the same line queried twice produces the identical run
twice, yet the output contains the trip exactly once. -/
theorem build_table_dedup_witness :
    (([((475, 480, "A"), (503, 500, "C"), "L")] : List Trip).Nodup ∧
     ([] : List Trip).Nodup) ∧
    (∀ t ∈ ([((475, 480, "A"), (503, 500, "C"), "L")] : List Trip),
      ([((475, 480, "A"), (503, 500, "C"), "L")] : List Trip).count t = 1) ∧
    (∀ t ∈ ([] : List Trip), ([] : List Trip).count t = 1) :=
  build_table_dedup
    [("L", [("dir", (["A", "B", "C"], [[some 480, some 490, some 500]]))]),
     ("L", [("dir", (["A", "B", "C"], [[some 480, some 490, some 500]]))])]
    [("A", 5)] [("C", 3)] _ _ rfl

/-- C6: a run with no present time at any usable origin-side stop, or none
at any usable destination-side stop, contributes no trip and raises no
error: `matchRun` yields `none`, the accumulated set is unchanged, and the
fold over the remaining runs continues exactly as if the run were absent. -/
theorem matchRun_no_usable_skip (idx_orig idx_dest : List IdxEntry) (line : String)
    (times : List (Option Time))
    (h : get_stops idx_orig times = [] ∨ get_stops idx_dest times = []) :
    matchRun idx_orig idx_dest times = none ∧
    (∀ acc : List Trip, addRun idx_orig idx_dest line acc times = acc) ∧
    (∀ (acc : List Trip) (rest : List (List (Option Time))),
      (times :: rest).foldl (addRun idx_orig idx_dest line) acc =
        rest.foldl (addRun idx_orig idx_dest line) acc) := by
  have hm : matchRun idx_orig idx_dest times = none := by
    rcases h with h | h
    · have ho : orig_candidates idx_orig times = [] := by
        unfold orig_candidates
        rw [h]
        rfl
      simp only [matchRun, ho]
    · have hd : dest_candidates idx_dest times = [] := by
        unfold dest_candidates
        rw [h]
        rfl
      cases ho : orig_candidates idx_orig times with
      | nil => simp only [matchRun, ho]
      | cons o os => simp only [matchRun, ho, hd]
  have ha : ∀ acc : List Trip, addRun idx_orig idx_dest line acc times = acc := by
    intro acc
    unfold addRun
    rw [hm]
  exact ⟨hm, ha, fun acc rest => by rw [List.foldl_cons, ha acc]⟩

/-- Witness for C6: stop A absent, stop C present at 8:20 in the
home-to-office direction: no trip, accumulator untouched, fold continues. -/
theorem matchRun_no_usable_skip_witness :
    matchRun (filter_idx ["A", "B", "C"] [("A", 5)])
        (filter_idx ["A", "B", "C"] [("C", 3)]) [none, none, some 500] = none ∧
    (∀ acc : List Trip,
      addRun (filter_idx ["A", "B", "C"] [("A", 5)])
        (filter_idx ["A", "B", "C"] [("C", 3)]) "L" acc [none, none, some 500] = acc) ∧
    (∀ (acc : List Trip) (rest : List (List (Option Time))),
      ([none, none, some 500] :: rest).foldl
          (addRun (filter_idx ["A", "B", "C"] [("A", 5)])
            (filter_idx ["A", "B", "C"] [("C", 3)]) "L") acc =
        rest.foldl
          (addRun (filter_idx ["A", "B", "C"] [("A", 5)])
            (filter_idx ["A", "B", "C"] [("C", 3)]) "L") acc) :=
  matchRun_no_usable_skip _ _ "L" _ (Or.inl (by decide))

/-- C7: whenever the run-matrix builder succeeds (so the per-page assertion
held on every fetched page), every run of the returned route has exactly one
entry per stop of the stop-name sequence. -/
theorem parse_path_stop_alignment (stops : List Stop)
    (pages : List (List (List (Option Time)))) (s : List Stop)
    (runs : List (List (Option Time)))
    (h : parse_path stops pages = Except.ok (s, runs)) :
    s = stops ∧ ∀ r ∈ runs, r.length = stops.length := by
  cases pages with
  | nil => exact Except.noConfusion h
  | cons first rest =>
    simp only [parse_path] at h
    cases hacc : accRows stops (first.map fun _ => []) (first :: rest) with
    | error e => rw [hacc] at h; exact Except.noConfusion h
    | ok tt =>
      rw [hacc] at h
      have hpair := Except.ok.inj h
      have hs : stops = s := congrArg Prod.fst hpair
      have hr : pyZipT tt = runs := congrArg Prod.snd hpair
      have htt : tt.length = stops.length := by
        unfold accRows at hacc
        split at hacc
        · next hcond =>
          refine accRows_len stops rest _ tt ?_ hacc
          rw [List.length_zipWith, List.length_map]
          omega
        · exact Except.noConfusion hacc
      refine ⟨hs.symm, ?_⟩
      intro r hrm
      rw [← hr] at hrm
      unfold pyZipT at hrm
      obtain ⟨i, _, rfl⟩ := List.mem_map.mp hrm
      rw [List.length_map]
      exact htt

/-- Witness for C7: one page with one time cell per stop row. -/
theorem parse_path_stop_alignment_witness :
    (["A", "B"] : List Stop) = ["A", "B"] ∧
    ∀ r ∈ [[some (1 : Time), some 2]], r.length = (["A", "B"] : List Stop).length :=
  parse_path_stop_alignment ["A", "B"] [[[some 1], [some 2]]] ["A", "B"]
    [[some 1, some 2]] rfl

/-- C8 counterexample: running with the format flag omitted, the program
still fetches the lines and runs the trip matcher, and only then fails (the
KeyError of `FORMATTING_FUNCTIONS[args.format]` with `args.format = None`) —
the failure is not reported before the computation. -/
theorem mainFlow_missing_format_counterexample :
    mainFlow none =
      ([MainEvent.fetchLines, MainEvent.buildTable], some MainErr.formatKeyError) ∧
    MainEvent.fetchLines ∈ (mainFlow none).1 :=
  ⟨rfl, by decide⟩

/-- C8 (amended): an explicitly requested format outside the supported set
(text, latex) is rejected by the argparse `choices` validation before any
fetching or matching happens; only a missing format selection escapes this
early check and fails later. -/
theorem mainFlow_bad_format_rejected_early (f : String)
    (h : f ∉ supported_formats) :
    mainFlow (some f) = ([], some MainErr.badFormatChoice) := by
  simp only [mainFlow]
  rw [if_neg h]

/-- Witness for the amended C8: requesting the html format fails at once. -/
theorem mainFlow_bad_format_rejected_early_witness :
    mainFlow (some "html") = ([], some MainErr.badFormatChoice) :=
  mainFlow_bad_format_rejected_early "html" (by decide)

/-- C9: the end-to-end example: stops A, B, C; home = A with 5 walking
minutes; office = C with 3 walking minutes; one run 8:00, 8:10, 8:20 (480,
490, 500 minutes).  The matcher produces exactly one home-to-office trip:
leave home 7:55 (475), board 8:00 (480) at A, alight 8:20 (500) at C,
arrive at the office 8:23 (503); the office-to-home list is empty. -/
theorem build_table_end_to_end :
    build_table [("L", [("dir", (["A", "B", "C"], [[some 480, some 490, some 500]]))])]
      [("A", 5)] [("C", 3)] =
    Except.ok ([((475, 480, "A"), (503, 500, "C"), "L")], []) := rfl

/-- C10: pages whose per-stop rows carry unequal numbers of time cells do
not make the builder raise: the `zip(*timetable)` transposition truncates to
the shortest accumulated row, the number of returned runs equals that
minimum length (surplus cells of longer rows are dropped), and every
returned run still has one entry per stop. -/
theorem parse_path_ragged_truncates (stops : List Stop)
    (first : List (List (Option Time))) (rest : List (List (List (Option Time))))
    (hall : ∀ p ∈ first :: rest, p.length = stops.length) :
    parse_path stops (first :: rest) =
      Except.ok (stops, pyZipT (pagesAcc (first.map fun _ => []) (first :: rest))) ∧
    (pyZipT (pagesAcc (first.map fun _ => []) (first :: rest))).length =
      minLen (pagesAcc (first.map fun _ => []) (first :: rest)) ∧
    ∀ r ∈ pyZipT (pagesAcc (first.map fun _ => []) (first :: rest)),
      r.length = stops.length := by
  refine ⟨?_, ?_, ?_⟩
  · simp only [parse_path]
    rw [accRows_all_ok stops (first :: rest) _ hall]
  · unfold pyZipT
    rw [List.length_map, List.length_range]
  · intro r hrm
    unfold pyZipT at hrm
    obtain ⟨i, _, rfl⟩ := List.mem_map.mp hrm
    rw [List.length_map]
    refine pagesAcc_len stops.length (first :: rest) _ hall ?_
    rw [List.length_map]
    exact hall first (List.mem_cons_self _ _)

/-- Witness for C10: one page whose first stop row has two cells and whose
second stop row has one: no failure, a single run, one entry per stop. -/
theorem parse_path_ragged_truncates_witness :
    parse_path ["A", "B"] [[[some 1, some 2], [some 3]]] =
      Except.ok (["A", "B"],
        pyZipT (pagesAcc (List.map (fun _ => []) [[some (1 : Time), some 2], [some 3]])
          [[[some 1, some 2], [some 3]]])) ∧
    (pyZipT (pagesAcc (List.map (fun _ => []) [[some (1 : Time), some 2], [some 3]])
        [[[some 1, some 2], [some 3]]])).length =
      minLen (pagesAcc (List.map (fun _ => []) [[some (1 : Time), some 2], [some 3]])
        [[[some 1, some 2], [some 3]]]) ∧
    ∀ r ∈ pyZipT (pagesAcc (List.map (fun _ => []) [[some (1 : Time), some 2], [some 3]])
        [[[some 1, some 2], [some 3]]]),
      r.length = (["A", "B"] : List Stop).length :=
  parse_path_ragged_truncates ["A", "B"] [[some 1, some 2], [some 3]] [] (by decide)

end Scrape
